import Mathlib

/-!
Verification of the normalized in-memory cache
(`src/packages/apollo-cache-inmemory/src/inMemoryCache.ts`).

The embedding models the JavaScript runtime features the code relies on:

* A JS object of type `NormalizedCacheObject` is an association list
  `NCO V := List (String × Option V)` in which the key of the *first*
  matching entry wins.  A key that is present with value `none` models a
  property whose stored value is `undefined` — distinct from an absent key
  (as observed by spread / `Object.assign`), while indexing (`obj[k]`)
  returns `undefined` in both cases exactly as in JS.
* Objects live in a heap (`Heap V`, indexed by `Ref := Nat`), because the
  source shares object references between stores (`overlay` passes
  `this.data` by reference to the new store), and that sharing is
  observable.
* `StoreObject` values are abstracted by a type parameter `V`; the JS
  `undefined` value is `Option.none`.
* Transactions (arbitrary callbacks in the source) are deep-embedded
  programs: `Tx V` for store-level transactions passed to
  `ObjectBasedCache.record`, and `CTx V` for cache-level transactions
  passed to `InMemoryCache.recordOptimisticTransaction` (whose reads and
  writes bottom out in the store operations, as the external
  normalizer/reconstructor collaborators do).
* A JS exception is an `Option String` / `Except String` outcome; the
  heap and cache value accompanying an error are the state at the point
  of the throw, matching JS semantics where a throw does not roll back
  side effects.
-/

namespace ApolloCache

variable {V : Type}

/-- A reference to a JS object in the heap. -/
abbrev Ref := Nat

/-- `NormalizedCacheObject`: a JS object mapping `dataId` to a
`StoreObject`-or-`undefined`.  First matching entry wins; an entry
`(k, none)` is a property present with value `undefined`. -/
abbrev NCO (V : Type) := List (String × Option V)

/-- The JS heap: object references index into a list of object contents. -/
abbrev Heap (V : Type) := List (NCO V)

/-- `Object.prototype.hasOwnProperty`-level lookup: `none` when the key is
absent, `some v` when the key is present with (possibly undefined) value
`v`. -/
def jsLookup (o : NCO V) (k : String) : Option (Option V) :=
  match o with
  | [] => none
  | (k2, v) :: t => if k2 = k then some v else jsLookup t k

/-- JS property read `o[k]`: `undefined` both when the key is absent and
when it is present with value `undefined`. -/
def jsGet (o : NCO V) (k : String) : Option V :=
  match jsLookup o k with
  | some v => v
  | none => none

/-- JS property write `o[k] = v` (the value may be `undefined`). -/
def jsSet (o : NCO V) (k : String) (v : Option V) : NCO V :=
  (k, v) :: o

/-- `{...a, ...b}` / one step of `Object.assign`: all own properties of
`b` (including those holding `undefined`) override those of `a`. -/
def jsAssign (a b : NCO V) : NCO V :=
  b ++ a

/-- `Object.assign(base, ...patches)`: later sources override earlier
ones. -/
def jsAssignList (base : NCO V) (ps : List (NCO V)) : NCO V :=
  ps.foldl jsAssign base

/-- The entry for `k` of the last patch in `ps` that defines `k`
(`none` when no patch defines it).  Used to state overlay-precedence
properties. -/
def lastDef (ps : List (NCO V)) (k : String) : Option (Option V) :=
  match ps with
  | [] => none
  | p :: t =>
    match lastDef t k with
    | some x => some x
    | none => jsLookup p k

/-- Dereference a heap object (a dangling reference reads as empty). -/
def Heap.read (h : Heap V) (r : Ref) : NCO V :=
  match h, r with
  | [], _ => []
  | o :: _, 0 => o
  | _ :: t, r + 1 => Heap.read t r

/-- Overwrite a heap object in place. -/
def Heap.write (h : Heap V) (r : Ref) (o : NCO V) : Heap V :=
  match h, r with
  | [], _ => []
  | _ :: t, 0 => o :: t
  | x :: t, r + 1 => x :: Heap.write t r o

/-- Allocate a fresh JS object. -/
def Heap.alloc (h : Heap V) (o : NCO V) : Heap V × Ref :=
  (h ++ [o], h.length)

/-- The `ObjectBasedCache` store of the source: a base `data` object,
an optional `overlayData` object, and an optional `recordedData` capture
buffer, all held by reference. -/
structure ObjectBasedCache where
  data : Ref
  overlayData : Option Ref
  recordedData : Option Ref
  deriving DecidableEq, Repr

/-- `ObjectBasedCache.toObject`:
`if (this.recordedData) return this.recordedData;`
`if (this.overlayData) return { ...this.data, ...this.overlayData };`
`return this.data;` -/
def ObjectBasedCache.toObject (h : Heap V) (c : ObjectBasedCache) : NCO V :=
  match c.recordedData with
  | some r => h.read r
  | none =>
    match c.overlayData with
    | some ro => jsAssign (h.read c.data) (h.read ro)
    | none => h.read c.data

/-- `ObjectBasedCache.overlay(...patches)`: returns
`new ObjectBasedCache(this.recordedData || this.data, this.overlayData ?
Object.assign({}, this.overlayData, ...patches) :
Object.assign({}, ...patches))`.  The new store's `data` field is the
*same reference* as the receiver's `recordedData`/`data`; the merged
overlay is a fresh object. -/
def ObjectBasedCache.overlay (h : Heap V) (c : ObjectBasedCache)
    (patches : List (NCO V)) : Heap V × ObjectBasedCache :=
  let base := c.recordedData.getD c.data
  let merged :=
    match c.overlayData with
    | some ro => jsAssignList [] (h.read ro :: patches)
    | none => jsAssignList [] patches
  let (h1, r) := h.alloc merged
  (h1, ⟨base, some r, none⟩)

/-- `ObjectBasedCache.get(dataId)`:
`if (this.recordedData) return this.recordedData[dataId];`
`if (this.overlayData && this.overlayData[dataId] !== undefined) return this.overlayData[dataId];`
`return this.data[dataId];` -/
def ObjectBasedCache.get (h : Heap V) (c : ObjectBasedCache) (k : String) : Option V :=
  match c.recordedData with
  | some r => jsGet (h.read r) k
  | none =>
    match c.overlayData with
    | some ro =>
      if (jsGet (h.read ro) k).isSome then jsGet (h.read ro) k
      else jsGet (h.read c.data) k
    | none => jsGet (h.read c.data) k

/-- `ObjectBasedCache.set(dataId, value)`: while recording, writes into
the capture buffer; otherwise writes into the (possibly shared) base
object and, when the key is visible in the overlay, poisons the overlay
entry with `undefined` so that it no longer takes precedence. -/
def ObjectBasedCache.set (h : Heap V) (c : ObjectBasedCache) (k : String)
    (v : Option V) : Heap V :=
  match c.recordedData with
  | some r => h.write r (jsSet (h.read r) k v)
  | none =>
    let h1 := h.write c.data (jsSet (h.read c.data) k v)
    match c.overlayData with
    | some ro =>
      if (jsGet (h1.read ro) k).isSome then h1.write ro (jsSet (h1.read ro) k none)
      else h1
    | none => h1

/-- `ObjectBasedCache.delete(dataId)` is `this.set(dataId, undefined)`. -/
def ObjectBasedCache.delete (h : Heap V) (c : ObjectBasedCache) (k : String) : Heap V :=
  ObjectBasedCache.set h c k none

/-- The message of the error thrown by `clear` during a recording. -/
def clearDuringRecordingMsg : String :=
  "Clearing the cache while recording a transaction is not possible"

/-- `ObjectBasedCache.clear()`: throws while recording (leaving every
object and field untouched, since the check precedes any mutation);
otherwise resets the `data` field to a fresh empty object and drops the
overlay.  The third component is the thrown message, if any. -/
def ObjectBasedCache.clear (h : Heap V) (c : ObjectBasedCache) :
    Heap V × ObjectBasedCache × Option String :=
  match c.recordedData with
  | some _ => (h, c, some clearDuringRecordingMsg)
  | none =>
    let (h1, r) := h.alloc []
    (h1, ⟨r, none, none⟩, none)

/-- A store-level transaction: the body handed to
`ObjectBasedCache.record` may call `get`/`set`/`delete`, nest a further
`record`, call `clear`, or throw. -/
inductive Tx (V : Type) : Type
  | done : Tx V
  | getThen (k : String) (cont : Option V → Tx V) : Tx V
  | setThen (k : String) (v : Option V) (next : Tx V) : Tx V
  | deleteThen (k : String) (next : Tx V) : Tx V
  | recordThen (sub : Tx V) (cont : NCO V → Tx V) : Tx V
  | clearThen (next : Tx V) : Tx V
  | fail (msg : String) : Tx V

/-- Run a store-level transaction body against the store.  The
`recordThen` case mirrors `ObjectBasedCache.record` of the source: the
previous buffer is saved, a fresh buffer installed, the sub-transaction
run, and the previous buffer restored — but, exactly as in the source
(which has no `try`/`finally`), the restoration is skipped when the
sub-transaction throws.  The `Option String` is the propagating
exception. -/
def runTx (h : Heap V) (c : ObjectBasedCache) :
    Tx V → Heap V × ObjectBasedCache × Option String
  | .done => (h, c, none)
  | .getThen k cont => runTx h c (cont (ObjectBasedCache.get h c k))
  | .setThen k v next => runTx (ObjectBasedCache.set h c k v) c next
  | .deleteThen k next => runTx (ObjectBasedCache.set h c k none) c next
  | .recordThen sub cont =>
    let prev := c.recordedData
    let (h1, r) := h.alloc []
    match runTx h1 { c with recordedData := some r } sub with
    | (h2, c2, some msg) => (h2, c2, some msg)
    | (h2, c2, none) => runTx h2 { c2 with recordedData := prev } (cont (h2.read r))
  | .clearThen next =>
    match ObjectBasedCache.clear h c with
    | (h1, c1, some msg) => (h1, c1, some msg)
    | (h1, c1, none) => runTx h1 c1 next
  | .fail msg => (h, c, some msg)

/-- `ObjectBasedCache.record(transaction)`: saves the previous buffer,
installs a fresh one, runs the transaction, restores the previous buffer
and returns the captured object — except that a throw propagates without
restoring (no `try`/`finally` in the source). -/
def ObjectBasedCache.record (h : Heap V) (c : ObjectBasedCache) (tx : Tx V) :
    Heap V × ObjectBasedCache × Except String (NCO V) :=
  let prev := c.recordedData
  let (h1, r) := h.alloc []
  match runTx h1 { c with recordedData := some r } tx with
  | (h2, c2, some msg) => (h2, c2, Except.error msg)
  | (h2, c2, none) => (h2, { c2 with recordedData := prev }, Except.ok (h2.read r))

/-- A cache-level transaction (the callback handed to
`recordOptimisticTransaction`): it may read through the cache's public
read path (which hands `extract(optimistic, false)` to the external
reconstructor, whose lookups bottom out in `store.get`), and write
through the public write path (the external normalizer mutates
`this.data` through `store.set`). -/
inductive CTx (V : Type) : Type
  | done : CTx V
  | readThen (optimistic : Bool) (k : String) (cont : Option V → CTx V) : CTx V
  | writeThen (k : String) (v : Option V) (next : CTx V) : CTx V

/-- An `OptimisticStoreItem`: `{ id, transaction, data }`. -/
structure Item (V : Type) where
  id : String
  transaction : CTx V
  data : NCO V

/-- The `InMemoryCache` orchestrator state: the heap, the single owned
store, the ordered optimistic list, and a count of
`broadcastWatches` invocations (each of which recomputes and delivers a
diff to every registered watcher). -/
structure InMemoryCache (V : Type) where
  heap : Heap V
  data : ObjectBasedCache
  optimistic : List (Item V)
  broadcasts : Nat

/-- `InMemoryCache.extract(optimistic, false)`: the store view handed to
the external reconstructor/differ — `this.data`, overlaid with every
optimistic patch when requested and patches exist. -/
def InMemoryCache.extractStore (st : InMemoryCache V) (optimistic : Bool) :
    Heap V × ObjectBasedCache :=
  if optimistic ∧ 0 < st.optimistic.length then
    ObjectBasedCache.overlay st.heap st.data (st.optimistic.map Item.data)
  else
    (st.heap, st.data)

/-- `InMemoryCache.extract(optimistic, true)` (serializable form):
`toObject()` of the composed view. -/
def InMemoryCache.extract (st : InMemoryCache V) (optimistic : Bool) : NCO V :=
  let (h, c) := st.extractStore optimistic
  ObjectBasedCache.toObject h c

/-- A single key lookup performed by a cache-level read: the external
reconstructor receives `extract(optimistic, false)` and reads entries
from it via `store.get`. -/
def InMemoryCache.cacheRead (st : InMemoryCache V) (optimistic : Bool)
    (k : String) : Option V :=
  let (h, c) := st.extractStore optimistic
  ObjectBasedCache.get h c k

/-- A single key update performed by a cache-level write: the external
normalizer mutates `this.data` through `store.set`; `write` then
broadcasts. -/
def InMemoryCache.cacheWrite (st : InMemoryCache V) (k : String) (v : Option V) :
    InMemoryCache V :=
  { st with
    heap := ObjectBasedCache.set st.heap st.data k v
    broadcasts := st.broadcasts + 1 }

/-- Run a cache-level transaction against the orchestrator. -/
def runCTx (st : InMemoryCache V) : CTx V → InMemoryCache V
  | .done => st
  | .readThen opt k cont => runCTx st (cont (st.cacheRead opt k))
  | .writeThen k v next => runCTx (st.cacheWrite k v) next

/-- `InMemoryCache.read(query)`: returns `null` when a truthy `rootId`
is given and `this.data.get(rootId)` is `undefined`; otherwise hands the
`extract(query.optimistic, false)` view to the external reconstructor
(`none` models the `null` short-circuit; `some` carries the view handed
over). -/
def InMemoryCache.read (st : InMemoryCache V) (rootId : Option String)
    (optimistic : Bool) : Option (Heap V × ObjectBasedCache) :=
  match rootId with
  | some s =>
    if s = "" then some (st.extractStore optimistic)
    else
      match ObjectBasedCache.get st.heap st.data s with
      | none => none
      | some _ => some (st.extractStore optimistic)
  | none => some (st.extractStore optimistic)

/-- `InMemoryCache.reset()`: `this.data.clear(); this.broadcastWatches();`
— the optimistic list is untouched; a throw from `clear` propagates. -/
def InMemoryCache.reset (st : InMemoryCache V) : Except String (InMemoryCache V) :=
  match ObjectBasedCache.clear st.heap st.data with
  | (_, _, some msg) => Except.error msg
  | (h1, c1, none) =>
    Except.ok { st with heap := h1, data := c1, broadcasts := st.broadcasts + 1 }

/-- `InMemoryCache.recordOptimisticTransaction(transaction, id)`:
`const patch = this.data.record(() => transaction(this));` followed by
`this.optimistic.push({id, transaction, data: patch})` and a broadcast.
The inlined `record` mirrors `ObjectBasedCache.record`: install a fresh
buffer on `this.data`, run the cache-level transaction, restore the
previous buffer, and keep the captured object as the patch. -/
def InMemoryCache.recordOptimisticTransaction (st : InMemoryCache V)
    (tx : CTx V) (id : String) : InMemoryCache V :=
  let prev := st.data.recordedData
  let (h1, r) := st.heap.alloc []
  let st1 := { st with heap := h1, data := { st.data with recordedData := some r } }
  let st2 := runCTx st1 tx
  let patch := st2.heap.read r
  { st2 with
    data := { st2.data with recordedData := prev }
    optimistic := st2.optimistic ++ [⟨id, tx, patch⟩]
    broadcasts := st2.broadcasts + 1 }

/-- `InMemoryCache.removeOptimistic(id)`: filter out the entries with the
given id, clear the live list, re-run every remaining entry's transaction
through `recordOptimisticTransaction` in original order, then broadcast. -/
def InMemoryCache.removeOptimistic (st : InMemoryCache V) (id : String) :
    InMemoryCache V :=
  let toPerform := st.optimistic.filter (fun item => item.id ≠ id)
  let st1 := { st with optimistic := ([] : List (Item V)) }
  let st2 := toPerform.foldl
    (fun s change => s.recordOptimisticTransaction change.transaction change.id) st1
  { st2 with broadcasts := st2.broadcasts + 1 }

/-!
### Spec-side definitions

These definitions follow the specification's words, not the source; they
exist to be compared with the source-derived definitions above.
-/

/-- Follows the spec's words for the store invariant (§3) and `toObject`
(§4.1): the fully composed view is the base, overridden by the overlay
patches in application order, overridden by the active recording's
captured entries if a recording is active. -/
def specComposedView (h : Heap V) (c : ObjectBasedCache) : NCO V :=
  let base := h.read c.data
  let withOverlay :=
    match c.overlayData with
    | some ro => jsAssign base (h.read ro)
    | none => base
  match c.recordedData with
  | some r => jsAssign withOverlay (h.read r)
  | none => withOverlay

/-- Follows the spec's words for replay (§4.2, cited by Claim C1): a
replayed transaction's reads observe the cumulative state — the
confirmed base plus all earlier rebuilt patches plus its own writes so
far — and its writes extend that cumulative state. -/
def specRunCumulative (view : NCO V) : CTx V → NCO V
  | .done => view
  | .readThen _ k cont => specRunCumulative view (cont (jsGet view k))
  | .writeThen k v next => specRunCumulative (jsSet view k v) next

/-- Follows the spec's words for `removeOptimistic` (§4.2): the state
obtained by rebuilding each remaining transaction, in order, against the
cumulative state without the removed entry. -/
def specCumulativeReplay (base : NCO V) (txs : List (CTx V)) : NCO V :=
  txs.foldl specRunCumulative base

/-!
### Helper lemmas about JS objects and the heap
-/

theorem jsLookup_append (a b : NCO V) (k : String) :
    jsLookup (a ++ b) k =
      match jsLookup a k with
      | some v => some v
      | none => jsLookup b k := by
  induction a with
  | nil => simp [jsLookup]
  | cons e t ih =>
    obtain ⟨k2, v⟩ := e
    by_cases hk : k2 = k <;> simp [jsLookup, hk, ih]

theorem jsLookup_assignList (k : String) (ps : List (NCO V)) (base : NCO V) :
    jsLookup (jsAssignList base ps) k =
      match lastDef ps k with
      | some x => some x
      | none => jsLookup base k := by
  induction ps generalizing base with
  | nil => simp [jsAssignList, lastDef]
  | cons p t ih =>
    show jsLookup (jsAssignList (jsAssign base p) t) k = _
    rw [ih]
    show _ = match (match lastDef t k with
      | some x => some x
      | none => jsLookup p k) with
      | some x => some x
      | none => jsLookup base k
    cases lastDef t k with
    | some x => rfl
    | none =>
      rw [show jsAssign base p = p ++ base from rfl, jsLookup_append p base k]

theorem jsAssignList_eq_append (ps : List (NCO V)) (base : NCO V) :
    jsAssignList base ps = jsAssignList [] ps ++ base := by
  induction ps generalizing base with
  | nil => simp [jsAssignList]
  | cons p t ih =>
    show jsAssignList (jsAssign base p) t = jsAssignList (jsAssign [] p) t ++ base
    rw [ih (jsAssign base p), ih (jsAssign [] p)]
    simp [jsAssign]

theorem Heap.read_write_ne (h : Heap V) (p q : Ref) (o : NCO V) (hne : q ≠ p) :
    (h.write p o).read q = h.read q := by
  induction h generalizing p q with
  | nil => rfl
  | cons x t ih =>
    cases p with
    | zero =>
      cases q with
      | zero => exact absurd rfl hne
      | succ q => rfl
    | succ p =>
      cases q with
      | zero => rfl
      | succ q => exact ih p q (fun hc => hne (congrArg Nat.succ hc))

theorem Heap.length_write (h : Heap V) (p : Ref) (o : NCO V) :
    (h.write p o).length = h.length := by
  induction h generalizing p with
  | nil => rfl
  | cons x t ih =>
    cases p with
    | zero => rfl
    | succ p => simpa [Heap.write] using ih p

theorem Heap.read_append (h h2 : Heap V) (r : Ref) (hr : r < h.length) :
    Heap.read (h ++ h2) r = h.read r := by
  induction h generalizing r with
  | nil => exact absurd hr (by simp)
  | cons x t ih =>
    cases r with
    | zero => rfl
    | succ r => exact ih r (by simpa using hr)

theorem Heap.read_append_length (h : Heap V) (o : NCO V) (t : Heap V) :
    Heap.read (h ++ o :: t) h.length = o := by
  induction h with
  | nil => rfl
  | cons x s ih => simpa using ih

/-!
### Invariants of transaction execution
-/

theorem ObjectBasedCache.length_set (h : Heap V) (c : ObjectBasedCache)
    (k : String) (v : Option V) :
    (ObjectBasedCache.set h c k v).length = h.length := by
  unfold ObjectBasedCache.set
  cases c.recordedData with
  | some r => exact Heap.length_write h r _
  | none =>
    cases c.overlayData with
    | some ro =>
      dsimp only
      split
      · rw [Heap.length_write, Heap.length_write]
      · rw [Heap.length_write]
    | none => exact Heap.length_write h c.data _

/-- While a recording is active, `set` writes only into the capture
buffer: every other heap object is untouched. -/
theorem ObjectBasedCache.read_set_recording (h : Heap V) (c : ObjectBasedCache)
    (k : String) (v : Option V) (r : Ref) (hrec : c.recordedData = some r)
    (p : Ref) (hp : p ≠ r) :
    (ObjectBasedCache.set h c k v).read p = h.read p := by
  simp only [ObjectBasedCache.set, hrec]
  exact Heap.read_write_ne h r p _ hp

/-- Running a cache-level transaction never changes the store's field
values nor the optimistic list (it mutates heap objects and broadcasts). -/
theorem runCTx_fields (t : CTx V) (st : InMemoryCache V) :
    (runCTx st t).data = st.data ∧ (runCTx st t).optimistic = st.optimistic := by
  induction t generalizing st with
  | done => exact ⟨rfl, rfl⟩
  | readThen opt k cont ih => exact ih _ st
  | writeThen k v next ih => exact ih (st.cacheWrite k v)

theorem runCTx_heap_length (t : CTx V) (st : InMemoryCache V) :
    (runCTx st t).heap.length = st.heap.length := by
  induction t generalizing st with
  | done => rfl
  | readThen opt k cont ih => exact ih _ st
  | writeThen k v next ih =>
    show (runCTx (st.cacheWrite k v) next).heap.length = st.heap.length
    rw [ih (st.cacheWrite k v)]
    exact ObjectBasedCache.length_set st.heap st.data k v

/-- While the store records, a cache-level transaction leaves every heap
object other than the capture buffer unchanged. -/
theorem runCTx_read_frame (t : CTx V) (st : InMemoryCache V) (r : Ref)
    (hrec : st.data.recordedData = some r) (p : Ref) (hp : p ≠ r) :
    (runCTx st t).heap.read p = st.heap.read p := by
  induction t generalizing st with
  | done => rfl
  | readThen opt k cont ih => exact ih _ st hrec
  | writeThen k v next ih =>
    have hrec2 : (st.cacheWrite k v).data.recordedData = some r := hrec
    show (runCTx (st.cacheWrite k v) next).heap.read p = st.heap.read p
    rw [ih (st.cacheWrite k v) hrec2]
    exact ObjectBasedCache.read_set_recording st.heap st.data k v r hrec p hp

theorem runCTx_broadcasts_le (t : CTx V) (st : InMemoryCache V) :
    st.broadcasts ≤ (runCTx st t).broadcasts := by
  induction t generalizing st with
  | done => exact Nat.le_refl _
  | readThen opt k cont ih => exact ih _ st
  | writeThen k v next ih =>
    exact Nat.le_trans (Nat.le_succ _) (ih (st.cacheWrite k v))

/-- Structure of one `recordOptimisticTransaction` call from a quiescent
store: the store's fields are restored, exactly one item (with the given
id and transaction) is appended, the confirmed base object is untouched
(all transaction writes went into the capture buffer), the heap grew by
the one allocated buffer, and at least one broadcast fired. -/
theorem recordOptimisticTransaction_spec (st : InMemoryCache V) (tx : CTx V)
    (tid : String) (hvalid : st.data.data < st.heap.length) :
    (st.recordOptimisticTransaction tx tid).data = st.data ∧
    (∃ δ, (st.recordOptimisticTransaction tx tid).optimistic =
      st.optimistic ++ [⟨tid, tx, δ⟩]) ∧
    (st.recordOptimisticTransaction tx tid).heap.read st.data.data =
      st.heap.read st.data.data ∧
    (st.recordOptimisticTransaction tx tid).heap.length = st.heap.length + 1 ∧
    st.broadcasts + 1 ≤ (st.recordOptimisticTransaction tx tid).broadcasts := by
  refine ⟨?_, ⟨?_, ?_⟩, ?_, ?_, ?_⟩
  · show { (runCTx { st with
        heap := st.heap ++ [[]]
        data := { st.data with recordedData := some st.heap.length } } tx).data
          with recordedData := st.data.recordedData } = st.data
    rw [(runCTx_fields tx _).1]
  · exact (runCTx { st with
      heap := st.heap ++ [[]]
      data := { st.data with recordedData := some st.heap.length } } tx).heap.read
        st.heap.length
  · show (runCTx { st with
        heap := st.heap ++ [[]]
        data := { st.data with recordedData := some st.heap.length } } tx).optimistic
          ++ _ = st.optimistic ++ _
    rw [(runCTx_fields tx _).2]
  · show (runCTx { st with
        heap := st.heap ++ [[]]
        data := { st.data with recordedData := some st.heap.length } } tx).heap.read
          st.data.data = st.heap.read st.data.data
    rw [runCTx_read_frame tx _ st.heap.length rfl st.data.data (Nat.ne_of_lt hvalid)]
    exact Heap.read_append st.heap [[]] st.data.data hvalid
  · show (runCTx { st with
        heap := st.heap ++ [[]]
        data := { st.data with recordedData := some st.heap.length } } tx).heap.length
          = st.heap.length + 1
    rw [runCTx_heap_length]
    simp
  · show st.broadcasts + 1 ≤ (runCTx { st with
        heap := st.heap ++ [[]]
        data := { st.data with recordedData := some st.heap.length } } tx).broadcasts + 1
    have hb : st.broadcasts ≤ (runCTx { st with
        heap := st.heap ++ [[]]
        data := { st.data with recordedData := some st.heap.length } } tx).broadcasts :=
      runCTx_broadcasts_le tx { st with
        heap := st.heap ++ [[]]
        data := { st.data with recordedData := some st.heap.length } }
    omega

/-- Structure of the replay fold performed by `removeOptimistic`:
invariants accumulated over a list of re-recorded items. -/
theorem replay_fold_spec (items : List (Item V)) (st : InMemoryCache V)
    (hvalid : st.data.data < st.heap.length) :
    (items.foldl
      (fun s change => s.recordOptimisticTransaction change.transaction change.id)
      st).data = st.data ∧
    (items.foldl
      (fun s change => s.recordOptimisticTransaction change.transaction change.id)
      st).optimistic.map Item.id = st.optimistic.map Item.id ++ items.map Item.id ∧
    (items.foldl
      (fun s change => s.recordOptimisticTransaction change.transaction change.id)
      st).optimistic.map Item.transaction =
        st.optimistic.map Item.transaction ++ items.map Item.transaction ∧
    (items.foldl
      (fun s change => s.recordOptimisticTransaction change.transaction change.id)
      st).heap.read st.data.data = st.heap.read st.data.data ∧
    st.heap.length ≤ (items.foldl
      (fun s change => s.recordOptimisticTransaction change.transaction change.id)
      st).heap.length ∧
    st.broadcasts + items.length ≤ (items.foldl
      (fun s change => s.recordOptimisticTransaction change.transaction change.id)
      st).broadcasts := by
  induction items generalizing st with
  | nil => refine ⟨rfl, by simp, by simp, rfl, Nat.le_refl _, by simp⟩
  | cons it rest ih =>
    obtain ⟨h1, ⟨δ, h2⟩, h3, h4, h5⟩ :=
      recordOptimisticTransaction_spec st it.transaction it.id hvalid
    have hvalid2 :
        (st.recordOptimisticTransaction it.transaction it.id).data.data <
          (st.recordOptimisticTransaction it.transaction it.id).heap.length := by
      rw [h1, h4]
      exact Nat.lt_succ_of_lt hvalid
    obtain ⟨g1, g2, g3, g4, g5, g6⟩ :=
      ih (st.recordOptimisticTransaction it.transaction it.id) hvalid2
    have hdd :
        (st.recordOptimisticTransaction it.transaction it.id).data.data
          = st.data.data := by rw [h1]
    refine ⟨?_, ?_, ?_, ?_, ?_, ?_⟩
    · show (rest.foldl _ (st.recordOptimisticTransaction it.transaction it.id)).data
        = st.data
      rw [g1, h1]
    · show (rest.foldl _
          (st.recordOptimisticTransaction it.transaction it.id)).optimistic.map
            Item.id = _
      rw [g2, h2]
      simp
    · show (rest.foldl _
          (st.recordOptimisticTransaction it.transaction it.id)).optimistic.map
            Item.transaction = _
      rw [g3, h2]
      simp
    · show (rest.foldl _
          (st.recordOptimisticTransaction it.transaction it.id)).heap.read
            st.data.data = st.heap.read st.data.data
      rw [← hdd, g4, hdd, h3]
    · show st.heap.length ≤ (rest.foldl _
        (st.recordOptimisticTransaction it.transaction it.id)).heap.length
      omega
    · show st.broadcasts + (rest.length + 1) ≤ (rest.foldl _
        (st.recordOptimisticTransaction it.transaction it.id)).broadcasts
      omega

/-- `get` precedence through a freshly merged overlay object: the merged
patches win when the key's last definition is a defined value; a key
whose last definition is the `undefined` sentinel, or that no patch
defines, falls back. -/
theorem jsGet_assignList_match (patches : List (NCO V)) (k : String)
    (fallback : Option V) :
    (if (jsGet (jsAssignList [] patches) k).isSome
      then jsGet (jsAssignList [] patches) k else fallback) =
      match lastDef patches k with
      | some (some v) => some v
      | _ => fallback := by
  have hjl : jsLookup (jsAssignList ([] : NCO V) patches) k = lastDef patches k := by
    rw [jsLookup_assignList]
    cases lastDef patches k <;> rfl
  unfold jsGet
  rw [hjl]
  cases lastDef patches k with
  | none => rfl
  | some x => cases x with
    | some v => rfl
    | none => rfl

/-- `extract(true)` from a quiescent store (no recording, no overlay on
the root store): the optimistic patches composed (last wins, including
`undefined` entries) over the confirmed base contents. -/
theorem extract_true_quiescent (st : InMemoryCache V)
    (hrec : st.data.recordedData = none) (hov : st.data.overlayData = none)
    (hvalid : st.data.data < st.heap.length) :
    st.extract true =
      jsAssignList (st.heap.read st.data.data) (st.optimistic.map Item.data) := by
  unfold InMemoryCache.extract InMemoryCache.extractStore
  by_cases hl : 0 < st.optimistic.length
  · rw [if_pos ⟨rfl, hl⟩]
    have hovl : ObjectBasedCache.overlay st.heap st.data (st.optimistic.map Item.data) =
        (st.heap ++ [jsAssignList [] (st.optimistic.map Item.data)],
          ⟨st.data.data, some st.heap.length, none⟩) := by
      simp [ObjectBasedCache.overlay, hrec, hov, Heap.alloc]
    rw [hovl]
    show jsAssign
        (Heap.read (st.heap ++ [jsAssignList [] (st.optimistic.map Item.data)])
          st.data.data)
        (Heap.read (st.heap ++ [jsAssignList [] (st.optimistic.map Item.data)])
          st.heap.length) = _
    rw [Heap.read_append_length, Heap.read_append _ _ _ hvalid,
      jsAssignList_eq_append (st.optimistic.map Item.data) (st.heap.read st.data.data)]
    rfl
  · rw [if_neg (fun hcond => hl hcond.2)]
    have hempty : st.optimistic = [] :=
      List.length_eq_zero.mp (Nat.eq_zero_of_not_pos hl)
    rw [hempty]
    show ObjectBasedCache.toObject st.heap st.data = _
    simp [ObjectBasedCache.toObject, hrec, hov, jsAssignList]

/-- `clear` during a recording: the throw happens before any mutation. -/
theorem clear_recording_eq (h : Heap V) (c : ObjectBasedCache) (r : Ref)
    (hr : c.recordedData = some r) :
    ObjectBasedCache.clear h c = (h, c, some clearDuringRecordingMsg) := by
  unfold ObjectBasedCache.clear
  rw [hr]

/-- `clear` outside a recording: fresh empty base, overlay dropped. -/
theorem clear_none_eq (h : Heap V) (c : ObjectBasedCache)
    (hn : c.recordedData = none) :
    ObjectBasedCache.clear h c = (h ++ [[]], ⟨h.length, none, none⟩, none) := by
  unfold ObjectBasedCache.clear
  rw [hn]
  rfl

/-- Once a recording is active, no transaction outcome — normal or
thrown — leaves the store out of recording mode: only a completed
`record` restores, and it restores the enclosing (still active) buffer. -/
theorem runTx_recording_isSome (t : Tx V) (h : Heap V) (c : ObjectBasedCache)
    (hc : c.recordedData.isSome) :
    ((runTx h c t).2.1).recordedData.isSome := by
  induction t generalizing h c with
  | done => exact hc
  | getThen k cont ih => exact ih _ h c hc
  | setThen k v next ih => exact ih _ c hc
  | deleteThen k next ih => exact ih _ c hc
  | fail msg => exact hc
  | clearThen next ih =>
    obtain ⟨r, hr⟩ := Option.isSome_iff_exists.mp hc
    simp only [runTx]
    rw [clear_recording_eq h c r hr]
    exact hc
  | recordThen sub cont ihsub ihcont =>
    simp only [runTx, Heap.alloc]
    rcases hm : runTx (h ++ [[]]) { c with recordedData := some h.length } sub with
      ⟨h2, c2, e⟩
    have hsub := ihsub (h ++ [[]]) { c with recordedData := some h.length } rfl
    rw [hm] at hsub
    cases e with
    | some msg => exact hsub
    | none => exact ihcont _ h2 { c2 with recordedData := c.recordedData } hc

/-- Unfolding equation of `record` when the transaction throws. -/
theorem record_error_eq (h : Heap V) (c : ObjectBasedCache) (tx : Tx V)
    (h2 : Heap V) (c2 : ObjectBasedCache) (m : String)
    (hm : runTx (h ++ [[]]) { c with recordedData := some h.length } tx =
      (h2, c2, some m)) :
    ObjectBasedCache.record h c tx = (h2, c2, Except.error m) := by
  show (match runTx (h ++ [[]]) { c with recordedData := some h.length } tx with
    | (h2, c2, some msg) => (h2, c2, Except.error msg)
    | (h2, c2, none) =>
      (h2, { c2 with recordedData := c.recordedData },
        Except.ok (h2.read h.length))) = (h2, c2, Except.error m)
  rw [hm]

/-- Unfolding equation of `record` when the transaction completes. -/
theorem record_ok_eq (h : Heap V) (c : ObjectBasedCache) (tx : Tx V)
    (h2 : Heap V) (c2 : ObjectBasedCache)
    (hm : runTx (h ++ [[]]) { c with recordedData := some h.length } tx =
      (h2, c2, none)) :
    ObjectBasedCache.record h c tx =
      (h2, { c2 with recordedData := c.recordedData },
        Except.ok (h2.read h.length)) := by
  show (match runTx (h ++ [[]]) { c with recordedData := some h.length } tx with
    | (h2, c2, some msg) => (h2, c2, Except.error msg)
    | (h2, c2, none) =>
      (h2, { c2 with recordedData := c.recordedData },
        Except.ok (h2.read h.length))) = _
  rw [hm]

/-!
### Claim theorems
-/

/-- Claim C2: evaluation of the code at the failing input.  With a base
store `B` over an empty shared data object and `O = B.overlay(P)` for a
patch `P` not defining `k`, the new store's `data` field is the same
reference (`0`) as `B`'s, and `O.set("k", 5)` writes through that shared
object: `B.get("k")` changes from `undefined` (first conjunct) to `5`
(last conjunct).  The claim — and the repository's own test "should not
affect the original cache when setting on an overlayed one" — say
`B.get("k")` must be unchanged. -/
theorem c2_overlay_set_writes_through :
    ObjectBasedCache.get ([[]] : Heap Nat) ⟨0, none, none⟩ "k" = none ∧
    (ObjectBasedCache.overlay ([[]] : Heap Nat) ⟨0, none, none⟩ [[("x", some 1)]]).2.data = 0 ∧
    ObjectBasedCache.get
      (ObjectBasedCache.set
        (ObjectBasedCache.overlay ([[]] : Heap Nat) ⟨0, none, none⟩ [[("x", some 1)]]).1
        (ObjectBasedCache.overlay ([[]] : Heap Nat) ⟨0, none, none⟩ [[("x", some 1)]]).2
        "k" (some 5))
      ⟨0, none, none⟩ "k" = some 5 := by
  exact ⟨rfl, rfl, rfl⟩

/-- Claim C3: evaluation of the code at the failing input.  The base data
object holds `Human` (first conjunct), yet during `record` a
`get("Human")` consults only the fresh capture buffer and returns
`undefined` — the probe entry captured by the recording stores the value
observed by the read, and it is `undefined` (second conjunct), not the
base value.  The repository's test "should passthrough values if not
defined in recording" asserts the base value must be returned. -/
theorem c3_recording_get_no_fallthrough :
    jsGet (Heap.read ([[("Human", some 0)]] : Heap Nat) 0) "Human" = some 0 ∧
    (ObjectBasedCache.record ([[("Human", some 0)]] : Heap Nat) ⟨0, none, none⟩
      (.getThen "Human" (fun x => .setThen "probe" x .done))).2.2
    = Except.ok [("probe", none)] := by
  exact ⟨rfl, rfl⟩

/-- Claim C5 counterexample: with base `{A: 1}`, no overlay, and an
active recording whose capture buffer is empty, `toObject()` returns the
bare buffer, in which `A` is absent — while the claimed composition
(base, overridden by overlay, overridden by the recording's captured
entries) still contains `A = 1`. -/
theorem c5_counterexample :
    jsGet (ObjectBasedCache.toObject ([[("A", some 1)], []] : Heap Nat)
      ⟨0, none, some 1⟩) "A" = none ∧
    jsGet (specComposedView ([[("A", some 1)], []] : Heap Nat)
      ⟨0, none, some 1⟩) "A" = some 1 := by
  exact ⟨rfl, rfl⟩

/-- Claim C5 (amended): while a recording is active `toObject()` yields
the capture buffer alone (the base and overlay are not composed
underneath); otherwise it yields the base overridden by the overlay
object, where an overlay entry overrides even when it holds `undefined`. -/
theorem c5_toObject_characterization (h : Heap V) (c : ObjectBasedCache)
    (k : String) :
    jsGet (ObjectBasedCache.toObject h c) k =
      match c.recordedData with
      | some r => jsGet (h.read r) k
      | none =>
        match c.overlayData with
        | some ro =>
          match jsLookup (h.read ro) k with
          | some x => x
          | none => jsGet (h.read c.data) k
        | none => jsGet (h.read c.data) k := by
  unfold ObjectBasedCache.toObject
  cases c.recordedData with
  | some r => rfl
  | none =>
    cases c.overlayData with
    | some ro =>
      show jsGet ((h.read ro) ++ (h.read c.data)) k =
        match jsLookup (h.read ro) k with
        | some x => x
        | none => jsGet (h.read c.data) k
      unfold jsGet
      rw [jsLookup_append]
      cases jsLookup (h.read ro) k with
      | some x => rfl
      | none => rfl
    | none => rfl

/-- Claim C6 counterexample: base `{k: 7}`, single patch `{k: undefined}`
(the deletion sentinel, present in the merged overlay object — first
conjunct).  The claim demands `get("k")` return the sentinel (`undefined`)
as the deleted-in-this-layer result; the code's `!== undefined` test makes
it fall through to the base instead, returning `7`. -/
theorem c6_counterexample :
    jsLookup (Heap.read (ObjectBasedCache.overlay ([[("k", some 7)]] : Heap Nat)
      ⟨0, none, none⟩ [[("k", none)]]).1 1) "k" = some none ∧
    ObjectBasedCache.get
      (ObjectBasedCache.overlay ([[("k", some 7)]] : Heap Nat)
        ⟨0, none, none⟩ [[("k", none)]]).1
      (ObjectBasedCache.overlay ([[("k", some 7)]] : Heap Nat)
        ⟨0, none, none⟩ [[("k", none)]]).2
      "k" = some 7 ∧
    (some 7 : Option Nat) ≠ none := by
  refine ⟨rfl, rfl, ?_⟩
  intro hcontra
  exact Option.noConfusion hcontra

/-- Claim C6 (amended): for a plain base store `B`,
`B.overlay(P1..Pn).get(k)` equals the last `Pi` defining `k` when that
value is defined; when the last definition is the `undefined` sentinel,
or no `Pi` defines `k`, it falls through to `B.get(k)` (the base data). -/
theorem c6_overlay_get_precedence (h : Heap V) (B : ObjectBasedCache)
    (patches : List (NCO V)) (k : String)
    (hrec : B.recordedData = none) (hov : B.overlayData = none)
    (hvalid : B.data < h.length) :
    ObjectBasedCache.get (ObjectBasedCache.overlay h B patches).1
      (ObjectBasedCache.overlay h B patches).2 k =
      match lastDef patches k with
      | some (some v) => some v
      | _ => jsGet (h.read B.data) k := by
  have hovl : ObjectBasedCache.overlay h B patches =
      (h ++ [jsAssignList [] patches], ⟨B.data, some h.length, none⟩) := by
    simp [ObjectBasedCache.overlay, hrec, hov, Heap.alloc]
  rw [hovl]
  show (if (jsGet (Heap.read (h ++ [jsAssignList [] patches]) h.length) k).isSome
      then jsGet (Heap.read (h ++ [jsAssignList [] patches]) h.length) k
      else jsGet (Heap.read (h ++ [jsAssignList [] patches]) B.data) k) = _
  rw [Heap.read_append_length, Heap.read_append _ _ _ hvalid]
  exact jsGet_assignList_match patches k _

/-- Claim C6 witness: a defined value in the single patch wins. -/
theorem c6_witness :
    ObjectBasedCache.get
      (ObjectBasedCache.overlay ([[("b", some 2)]] : Heap Nat)
        ⟨0, none, none⟩ [[("k", some 9)]]).1
      (ObjectBasedCache.overlay ([[("b", some 2)]] : Heap Nat)
        ⟨0, none, none⟩ [[("k", some 9)]]).2
      "k" =
      match lastDef [[("k", some 9)]] "k" with
      | some (some v) => some v
      | _ => jsGet (Heap.read ([[("b", some 2)]] : Heap Nat) 0) "k" :=
  c6_overlay_get_precedence [[("b", some 2)]] ⟨0, none, none⟩ [[("k", some 9)]]
    "k" rfl rfl (by decide)

/-- Claim C7: `clear()` throws with the documented message while a
recording is active, returning the heap and the store fields exactly
unchanged (the check precedes any mutation, so there is no partial
effect); with no active recording it succeeds, pointing the store at a
fresh empty base object and dropping the overlay. -/
theorem c7_clear_semantics (h : Heap V) (c : ObjectBasedCache) :
    (∀ r, c.recordedData = some r →
      ObjectBasedCache.clear h c = (h, c, some clearDuringRecordingMsg)) ∧
    (c.recordedData = none →
      ObjectBasedCache.clear h c = (h ++ [[]], ⟨h.length, none, none⟩, none)) :=
  ⟨fun r hr => clear_recording_eq h c r hr, fun hn => clear_none_eq h c hn⟩

/-- Claim C7 witness: both branches at concrete stores. -/
theorem c7_witness :
    ObjectBasedCache.clear ([[("A", some 1)], []] : Heap Nat) ⟨0, none, some 1⟩ =
      (([[("A", some 1)], []] : Heap Nat), ⟨0, none, some 1⟩,
        some clearDuringRecordingMsg) ∧
    ObjectBasedCache.clear ([[("A", some 1)]] : Heap Nat) ⟨0, some 0, none⟩ =
      (([[("A", some 1)], []] : Heap Nat), ⟨1, none, none⟩, none) :=
  ⟨(c7_clear_semantics [[("A", some 1)], []] ⟨0, none, some 1⟩).1 1 rfl,
    (c7_clear_semantics [[("A", some 1)]] ⟨0, some 0, none⟩).2 rfl⟩

/-- Claim C8: `read` returns `null` whenever a non-empty `rootId` is
passed and the confirmed store's `get(rootId)` is `undefined` — for every
cache state and both values of the `optimistic` flag, so optimistic
patches cannot conjure a missing root. -/
theorem c8_root_existence_gate (st : InMemoryCache V) (s : String)
    (optimistic : Bool) (hs : s ≠ "")
    (hmiss : ObjectBasedCache.get st.heap st.data s = none) :
    st.read (some s) optimistic = none := by
  show (if s = "" then some (st.extractStore optimistic)
    else
      match ObjectBasedCache.get st.heap st.data s with
      | none => none
      | some _ => some (st.extractStore optimistic)) = none
  rw [if_neg hs, hmiss]

/-- Claim C8 witness: the optimistic patch defines `Missing:1` (second
conjunct shows it in the optimistic extract), yet the optimistic read
still short-circuits to `null`. -/
theorem c8_witness :
    InMemoryCache.read
      (⟨[[]], ⟨0, none, none⟩,
        [⟨"P1", CTx.done, [("Missing:1", some 5)]⟩], 0⟩ : InMemoryCache Nat)
      (some "Missing:1") true = none ∧
    jsGet (InMemoryCache.extract
      (⟨[[]], ⟨0, none, none⟩,
        [⟨"P1", CTx.done, [("Missing:1", some 5)]⟩], 0⟩ : InMemoryCache Nat)
      true) "Missing:1" = some 5 :=
  ⟨c8_root_existence_gate _ "Missing:1" true (by decide) rfl, rfl⟩

/-- Claim C9: `reset()` clears only the confirmed store — the optimistic
list is untouched, one broadcast fires, and a subsequent `extract(true)`
composes every previously recorded patch (with its stale captured data)
over the now-empty confirmed base. -/
theorem c9_reset_preserves_optimistic (st : InMemoryCache V)
    (hrec : st.data.recordedData = none) :
    ∃ st2 : InMemoryCache V, st.reset = Except.ok st2 ∧
      st2.optimistic = st.optimistic ∧
      st2.broadcasts = st.broadcasts + 1 ∧
      st2.extract true = jsAssignList [] (st.optimistic.map Item.data) := by
  refine ⟨{ st with
      heap := st.heap ++ [[]]
      data := ⟨st.heap.length, none, none⟩
      broadcasts := st.broadcasts + 1 }, ?_, rfl, rfl, ?_⟩
  · unfold InMemoryCache.reset
    rw [clear_none_eq st.heap st.data hrec]
  · have h2 := extract_true_quiescent
      ({ st with heap := st.heap ++ [[]], data := ⟨st.heap.length, none, none⟩, broadcasts := st.broadcasts + 1 } : InMemoryCache V)
      rfl rfl (by simp)
    rw [h2]
    show jsAssignList (Heap.read (st.heap ++ [[]]) st.heap.length)
      (st.optimistic.map Item.data) = _
    rw [Heap.read_append_length]

/-- Claim C9 witness: a concrete cache with one previously recorded
optimistic patch, whose data survives `reset` untouched. -/
theorem c9_witness :
    ∃ st2 : InMemoryCache Nat,
      InMemoryCache.reset (⟨[[("A", some 1)]], ⟨0, none, none⟩,
        [⟨"P1", CTx.done, [("B", some 2)]⟩], 0⟩ : InMemoryCache Nat) =
          Except.ok st2 ∧
      st2.optimistic = [⟨"P1", CTx.done, [("B", some 2)]⟩] ∧
      st2.broadcasts = 0 + 1 ∧
      st2.extract true =
        jsAssignList [] ([(⟨"P1", CTx.done, [("B", some 2)]⟩ : Item Nat)].map
          Item.data) :=
  c9_reset_preserves_optimistic _ rfl

/-- Claim C10 counterexample: the record call on `h = [[]]` installs the
buffer with reference `h.length = 1`; when the transaction throws from
inside a *nested* recording, the store is left recording into the nested
buffer (reference `2`), not the buffer installed by that record call. -/
theorem c10_counterexample :
    ([[]] : Heap Nat).length = 1 ∧
    ((ObjectBasedCache.record ([[]] : Heap Nat) ⟨0, none, none⟩
      (.recordThen (.fail "boom") (fun _ => .done))).2.1).recordedData = some 2 ∧
    ((ObjectBasedCache.record ([[]] : Heap Nat) ⟨0, none, none⟩
      (.recordThen (.fail "boom") (fun _ => .done))).2.1).recordedData ≠
      some ([[]] : Heap Nat).length := by
  decide

/-- Claim C10 (amended): when the transaction passed to `record` throws,
the error propagates to the caller and the prior recording state is not
restored — the store remains in recording mode on the capture buffer
active at the throw point (the one installed by that record call when the
throw is not inside a nested recording): afterwards `clear()` throws, and
`get`/`set` target that abandoned buffer instead of the base. -/
theorem c10_throw_keeps_recording (h : Heap V) (c : ObjectBasedCache)
    (tx : Tx V) (msg : String)
    (herr : (ObjectBasedCache.record h c tx).2.2 = Except.error msg) :
    ∃ r, ((ObjectBasedCache.record h c tx).2.1).recordedData = some r ∧
      ObjectBasedCache.clear (ObjectBasedCache.record h c tx).1
        (ObjectBasedCache.record h c tx).2.1 =
        ((ObjectBasedCache.record h c tx).1, (ObjectBasedCache.record h c tx).2.1,
          some clearDuringRecordingMsg) ∧
      (∀ k, ObjectBasedCache.get (ObjectBasedCache.record h c tx).1
        (ObjectBasedCache.record h c tx).2.1 k =
        jsGet (((ObjectBasedCache.record h c tx).1).read r) k) ∧
      (∀ k v, ObjectBasedCache.set (ObjectBasedCache.record h c tx).1
        (ObjectBasedCache.record h c tx).2.1 k v =
        ((ObjectBasedCache.record h c tx).1).write r
          (jsSet (((ObjectBasedCache.record h c tx).1).read r) k v)) := by
  rcases hm : runTx (h ++ [[]]) { c with recordedData := some h.length } tx with
    ⟨h2, c2, e⟩
  cases e with
  | none =>
    rw [record_ok_eq h c tx h2 c2 hm] at herr
    exact Except.noConfusion herr
  | some m =>
    have hre := record_error_eq h c tx h2 c2 m hm
    have hsome : c2.recordedData.isSome := by
      have hs := runTx_recording_isSome tx (h ++ [[]])
        { c with recordedData := some h.length } rfl
      rw [hm] at hs
      exact hs
    obtain ⟨r, hr⟩ := Option.isSome_iff_exists.mp hsome
    refine ⟨r, ?_, ?_, ?_, ?_⟩
    · rw [hre]
      exact hr
    · rw [hre]
      exact clear_recording_eq h2 c2 r hr
    · intro k
      rw [hre]
      show ObjectBasedCache.get h2 c2 k = jsGet (h2.read r) k
      simp only [ObjectBasedCache.get, hr]
    · intro k v
      rw [hre]
      show ObjectBasedCache.set h2 c2 k v = h2.write r (jsSet (h2.read r) k v)
      simp only [ObjectBasedCache.set, hr]

/-- Claim C10 witness: a directly throwing transaction from a concrete
plain store. -/
theorem c10_witness :
    ∃ r, ((ObjectBasedCache.record ([[]] : Heap Nat) ⟨0, none, none⟩
        (Tx.fail "boom")).2.1).recordedData = some r ∧
      ObjectBasedCache.clear
        (ObjectBasedCache.record ([[]] : Heap Nat) ⟨0, none, none⟩
          (Tx.fail "boom")).1
        (ObjectBasedCache.record ([[]] : Heap Nat) ⟨0, none, none⟩
          (Tx.fail "boom")).2.1 =
        ((ObjectBasedCache.record ([[]] : Heap Nat) ⟨0, none, none⟩
          (Tx.fail "boom")).1,
          (ObjectBasedCache.record ([[]] : Heap Nat) ⟨0, none, none⟩
            (Tx.fail "boom")).2.1,
          some clearDuringRecordingMsg) ∧
      (∀ k, ObjectBasedCache.get
        (ObjectBasedCache.record ([[]] : Heap Nat) ⟨0, none, none⟩
          (Tx.fail "boom")).1
        (ObjectBasedCache.record ([[]] : Heap Nat) ⟨0, none, none⟩
          (Tx.fail "boom")).2.1 k =
        jsGet (((ObjectBasedCache.record ([[]] : Heap Nat) ⟨0, none, none⟩
          (Tx.fail "boom")).1).read r) k) ∧
      (∀ k v, ObjectBasedCache.set
        (ObjectBasedCache.record ([[]] : Heap Nat) ⟨0, none, none⟩
          (Tx.fail "boom")).1
        (ObjectBasedCache.record ([[]] : Heap Nat) ⟨0, none, none⟩
          (Tx.fail "boom")).2.1 k v =
        ((ObjectBasedCache.record ([[]] : Heap Nat) ⟨0, none, none⟩
          (Tx.fail "boom")).1).write r
          (jsSet (((ObjectBasedCache.record ([[]] : Heap Nat) ⟨0, none, none⟩
            (Tx.fail "boom")).1).read r) k v)) :=
  c10_throw_keeps_recording [[]] ⟨0, none, none⟩ (Tx.fail "boom") "boom" rfl

/-- Claim C4 counterexample: confirmed base `{B: 3}` and one existing
patch `P1 = {A: 1}` — the optimistic-composed view before recording shows
`B = 3` (first conjunct).  Recording `P2`, whose transaction copies its
(optimistic) read of `B` into `C`, captures `C = undefined`: the read did
not observe the composed view's `B = 3`, because during recording only
the patches over the capture buffer are visible, never the confirmed
base. -/
theorem c4_counterexample :
    jsGet (InMemoryCache.extract
      (InMemoryCache.recordOptimisticTransaction
        (⟨[[("B", some 3)]], ⟨0, none, none⟩, [], 0⟩ : InMemoryCache Nat)
        (CTx.writeThen "A" (some 1) CTx.done) "P1") true) "B" = some 3 ∧
    (InMemoryCache.recordOptimisticTransaction
      (InMemoryCache.recordOptimisticTransaction
        (⟨[[("B", some 3)]], ⟨0, none, none⟩, [], 0⟩ : InMemoryCache Nat)
        (CTx.writeThen "A" (some 1) CTx.done) "P1")
      (CTx.readThen true "B" (fun x => CTx.writeThen "C" x CTx.done))
      "P2").optimistic.map Item.data
    = [[("A", some 1)], [("C", none)]] := by
  exact ⟨rfl, rfl⟩

/-- Claim C4 (amended): while `recordOptimisticTransaction` is recording
(capture buffer `r`, which holds the transaction's own writes so far),
every non-optimistic read handed to the external reconstructor observes
the capture buffer alone, and every optimistic read observes the existing
patches (last definition wins when defined) over the capture buffer; the
confirmed base is not consulted in either case. -/
theorem c4_recording_visibility (st : InMemoryCache V) (r : Ref)
    (hrec : st.data.recordedData = some r) (hov : st.data.overlayData = none)
    (hvalid : r < st.heap.length) :
    (∀ k, st.cacheRead false k = jsGet (st.heap.read r) k) ∧
    (0 < st.optimistic.length → ∀ k, st.cacheRead true k =
      match lastDef (st.optimistic.map Item.data) k with
      | some (some v) => some v
      | _ => jsGet (st.heap.read r) k) := by
  constructor
  · intro k
    show ObjectBasedCache.get st.heap st.data k = jsGet (st.heap.read r) k
    simp only [ObjectBasedCache.get, hrec]
  · intro hl k
    unfold InMemoryCache.cacheRead InMemoryCache.extractStore
    rw [if_pos ⟨rfl, hl⟩]
    have hovl : ObjectBasedCache.overlay st.heap st.data
        (st.optimistic.map Item.data) =
        (st.heap ++ [jsAssignList [] (st.optimistic.map Item.data)],
          ⟨r, some st.heap.length, none⟩) := by
      simp [ObjectBasedCache.overlay, hrec, hov, Heap.alloc]
    rw [hovl]
    show (if (jsGet (Heap.read
          (st.heap ++ [jsAssignList [] (st.optimistic.map Item.data)])
          st.heap.length) k).isSome
        then jsGet (Heap.read
          (st.heap ++ [jsAssignList [] (st.optimistic.map Item.data)])
          st.heap.length) k
        else jsGet (Heap.read
          (st.heap ++ [jsAssignList [] (st.optimistic.map Item.data)]) r) k) = _
    rw [Heap.read_append_length, Heap.read_append _ _ _ hvalid]
    exact jsGet_assignList_match (st.optimistic.map Item.data) k _

/-- Claim C4 witness: a concrete recording state (buffer reference `1`)
with base `{B: 3}` and one patch; a non-optimistic read of `B` observes
the capture buffer's value. -/
theorem c4_witness :
    InMemoryCache.cacheRead
      (⟨[[("B", some 3)], []], ⟨0, none, some 1⟩,
        [⟨"P1", CTx.done, [("A", some 1)]⟩], 0⟩ : InMemoryCache Nat)
      false "B" =
    jsGet (Heap.read ([[("B", some 3)], []] : Heap Nat) 1) "B" :=
  (c4_recording_visibility
    (⟨[[("B", some 3)], []], ⟨0, none, some 1⟩,
      [⟨"P1", CTx.done, [("A", some 1)]⟩], 0⟩ : InMemoryCache Nat)
    1 rfl rfl (by decide)).1 "B"

/-- Claim C1 counterexample: base `{B: 3}`; patch `P1` writes `A = 1`;
patch `P2`'s transaction copies its (optimistic) read of `B` into `C`.
After `removeOptimistic("P1")`, the cumulative state without the removed
entry still contains `B = 3`, so the claimed recomputation yields
`C = 3` (second conjunct, using the spec-side replay); the code's
`extract(true)` instead shows `C = undefined` (first conjunct): the
replayed transaction's reads never saw the confirmed base. -/
theorem c1_counterexample :
    jsGet (InMemoryCache.extract
      (InMemoryCache.removeOptimistic
        (InMemoryCache.recordOptimisticTransaction
          (InMemoryCache.recordOptimisticTransaction
            (⟨[[("B", some 3)]], ⟨0, none, none⟩, [], 0⟩ : InMemoryCache Nat)
            (CTx.writeThen "A" (some 1) CTx.done) "P1")
          (CTx.readThen true "B" (fun x => CTx.writeThen "C" x CTx.done)) "P2")
        "P1") true) "C" = none ∧
    jsGet (specCumulativeReplay [("B", some 3)]
      [CTx.readThen true "B" (fun x => CTx.writeThen "C" x CTx.done)]) "C"
      = some 3 := by
  exact ⟨rfl, rfl⟩

/-- Claim C1 (amended): from a quiescent cache, `removeOptimistic(id)`
discards all previously captured patch data and re-executes each
remaining entry's transaction in the original order via
`recordOptimisticTransaction` (same ids and transactions, in order), the
confirmed base object is untouched, at least one broadcast occurs, and
`extract(true)` afterwards composes exactly the freshly re-recorded
patches over the confirmed base — but each patch is recomputed against
the replay recording view (earlier replayed patches over the capture
buffer for optimistic reads, the buffer alone otherwise), not against a
cumulative state containing the confirmed base. -/
theorem c1_remove_optimistic_replays (st : InMemoryCache V) (rid : String)
    (hrec : st.data.recordedData = none) (hov : st.data.overlayData = none)
    (hvalid : st.data.data < st.heap.length) :
    (st.removeOptimistic rid).data = st.data ∧
    (st.removeOptimistic rid).optimistic.map Item.id =
      (st.optimistic.filter (fun item => item.id ≠ rid)).map Item.id ∧
    (st.removeOptimistic rid).optimistic.map Item.transaction =
      (st.optimistic.filter (fun item => item.id ≠ rid)).map Item.transaction ∧
    (st.removeOptimistic rid).heap.read st.data.data =
      st.heap.read st.data.data ∧
    st.broadcasts + 1 ≤ (st.removeOptimistic rid).broadcasts ∧
    (st.removeOptimistic rid).extract true =
      jsAssignList (st.heap.read st.data.data)
        ((st.removeOptimistic rid).optimistic.map Item.data) := by
  obtain ⟨g1, g2, g3, g4, g5, g6⟩ :=
    replay_fold_spec (st.optimistic.filter (fun item => item.id ≠ rid))
      { st with optimistic := ([] : List (Item V)) } hvalid
  have g1' : (st.removeOptimistic rid).data = st.data := g1
  have g2' : (st.removeOptimistic rid).optimistic.map Item.id =
      (st.optimistic.filter (fun item => item.id ≠ rid)).map Item.id := by
    have h := g2
    simp only [List.map_nil, List.nil_append] at h
    exact h
  have g3' : (st.removeOptimistic rid).optimistic.map Item.transaction =
      (st.optimistic.filter (fun item => item.id ≠ rid)).map Item.transaction := by
    have h := g3
    simp only [List.map_nil, List.nil_append] at h
    exact h
  have g4' : (st.removeOptimistic rid).heap.read st.data.data =
      st.heap.read st.data.data := g4
  have hb : st.broadcasts + 1 ≤ (st.removeOptimistic rid).broadcasts :=
    Nat.succ_le_succ (Nat.le_trans (Nat.le_add_right st.broadcasts _) g6)
  have hr1 : (st.removeOptimistic rid).data.recordedData = none := by
    rw [g1']
    exact hrec
  have hr2 : (st.removeOptimistic rid).data.overlayData = none := by
    rw [g1']
    exact hov
  have hr3 : (st.removeOptimistic rid).data.data <
      (st.removeOptimistic rid).heap.length := by
    rw [g1']
    exact Nat.lt_of_lt_of_le hvalid g5
  refine ⟨g1', g2', g3', g4', hb, ?_⟩
  rw [extract_true_quiescent (st.removeOptimistic rid) hr1 hr2 hr3]
  have hread : (st.removeOptimistic rid).heap.read
      (st.removeOptimistic rid).data.data = st.heap.read st.data.data := by
    rw [g1']
    exact g4'
  rw [hread]

/-- Claim C1 witness: the two-patch build-up of the counterexample —
after removal of `P1`, exactly `P2` remains, re-recorded in order. -/
theorem c1_witness :
    (InMemoryCache.removeOptimistic
      (InMemoryCache.recordOptimisticTransaction
        (InMemoryCache.recordOptimisticTransaction
          (⟨[[("B", some 3)]], ⟨0, none, none⟩, [], 0⟩ : InMemoryCache Nat)
          (CTx.writeThen "A" (some 1) CTx.done) "P1")
        (CTx.readThen true "B" (fun x => CTx.writeThen "C" x CTx.done)) "P2")
      "P1").optimistic.map Item.id =
    ((InMemoryCache.recordOptimisticTransaction
      (InMemoryCache.recordOptimisticTransaction
        (⟨[[("B", some 3)]], ⟨0, none, none⟩, [], 0⟩ : InMemoryCache Nat)
        (CTx.writeThen "A" (some 1) CTx.done) "P1")
      (CTx.readThen true "B" (fun x => CTx.writeThen "C" x CTx.done))
      "P2").optimistic.filter (fun item => item.id ≠ "P1")).map Item.id :=
  (c1_remove_optimistic_replays
    (InMemoryCache.recordOptimisticTransaction
      (InMemoryCache.recordOptimisticTransaction
        (⟨[[("B", some 3)]], ⟨0, none, none⟩, [], 0⟩ : InMemoryCache Nat)
        (CTx.writeThen "A" (some 1) CTx.done) "P1")
      (CTx.readThen true "B" (fun x => CTx.writeThen "C" x CTx.done)) "P2")
    "P1" rfl rfl (by decide)).2.1

end ApolloCache
